import Mathlib

/-!
Verification of the PDFManager splitter (src/splitter.py) and the archival
step of its shell (src/app.py), as shallow Lean embeddings.

A PDF document is modelled by its list of pages (an abstract list).  The
file system effects of the split loop are modelled by returning the list of
written files (output path together with the list of pages written to it)
and the list of progress values sent on the progress signal.  Cancellation
requests, which in the source arrive through a blinker signal while a chunk
is being processed, are modelled by a schedule cancelDuring : Nat -> Bool
telling for each chunk index whether a request arrives during that chunk.

The progress value is computed by the source in Python floats:
progress = (start_page + pages_per_pdf) / total_pages * 100 followed by
int(progress).  CPython true division of integers yields the correctly
rounded IEEE-754 binary64 quotient, and float multiplication is correctly
rounded as well, so the embedding computes both roundings exactly over the
integers (PyFloat below) rather than idealising the value to an exact
rational.
-/

/-- State of a PDFSplitter object: the attributes set in defaultAttributes.
The two blinker signals are not data; the progress signal is modelled by the
list of progress values a run sends, and the cancel signal by the
cancelDuring schedule of split_pdf together with cancel_progress. -/
structure PDFSplitter where
  input_pdf_path : String
  output_directory_path : String
  pages_per_pdf : Nat
  compress_zip : Bool
  sub_pdf_num : Nat
  cancel : Bool

/-- PDFSplitter.defaultAttributes: resets every attribute to its default,
ignoring the previous state. -/
def defaultAttributes (_s : PDFSplitter) : PDFSplitter :=
  { input_pdf_path := ""
    output_directory_path := ""
    pages_per_pdf := 1
    compress_zip := false
    sub_pdf_num := 0
    cancel := false }

/-- PDFSplitter.cancel_progress: sets the cancel flag (the sender and kwargs
of the signal handler carry no data). -/
def cancel_progress (s : PDFSplitter) : PDFSplitter :=
  { s with cancel := true }

/-- Outcome of PyPDF2.PdfReader(path): either the file parses (with some
number of pages), or parsing fails with PyPDF2.errors.PdfReadError, or some
other exception is raised (for instance FileNotFoundError when the path does
not exist, or PermissionError when it is unreadable); those other exception
classes are not subclasses of PdfReadError. -/
inductive PdfReadOutcome where
  | ok (pages : Nat)
  | pdfReadError
  | otherError (msg : String)

/-- PDFSplitter.check_pdf: try PdfReader(pdf) and return True on success,
False on PdfReadError; any other exception escapes the except clause and
propagates, modelled by Except.error. -/
def check_pdf (reader : String → PdfReadOutcome) (pdf : String) : Except String Bool :=
  match reader pdf with
  | PdfReadOutcome.ok _ => Except.ok true
  | PdfReadOutcome.pdfReadError => Except.ok false
  | PdfReadOutcome.otherError msg => Except.error msg

/-- Number of binary digits of n (0 for n = 0); the first argument is fuel
bounding the recursion, consumed no faster than halving n reaches 0. -/
def bitLenAux : Nat → Nat → Nat
  | 0, _ => 0
  | fuel + 1, n => if n = 0 then 0 else bitLenAux fuel (n / 2) + 1

/-- Number of binary digits of n, so 2 ^ (bitLen n - 1) ≤ n < 2 ^ bitLen n
for n ≥ 1. -/
def bitLen (n : Nat) : Nat :=
  bitLenAux n n

/-- Round the exact fraction a / b (meaningful for b > 0) to the nearest
integer, ties to even: the rounding used by IEEE-754 binary64 arithmetic. -/
def rndNearestEven (a b : Nat) : Nat :=
  let q := a / b
  let r := a % b
  if 2 * r < b then q
  else if b < 2 * r then q + 1
  else if q % 2 = 0 then q else q + 1

/-- Largest e with 2 ^ e ≤ p / T, for p, T ≥ 1.  The difference of bit
lengths d satisfies 2 ^ (d - 1) < p / T < 2 ^ (d + 1), so the answer is d
or d - 1, decided by one exact comparison. -/
def floorLog2Frac (p T : Nat) : Int :=
  let d : Int := (bitLen p : Int) - (bitLen T : Int)
  if 0 ≤ d then (if T * 2 ^ d.toNat ≤ p then d else d - 1)
  else (if T ≤ p * 2 ^ (-d).toNat then d else d - 1)

/-- A nonnegative IEEE-754 binary64 value mantissa * 2 ^ exponent.  All
values arising here are in the normal range, far from overflow and
underflow, so only the mantissa and exponent matter. -/
structure PyFloat where
  mantissa : Nat
  exponent : Int

/-- Correctly rounded binary64 quotient of the integers p and T (with p,
T ≥ 1), as produced by Python true division p / T: the exact quotient is
scaled into the binade of 53-bit mantissas and rounded to nearest, ties to
even. -/
def fpDiv (p T : Nat) : PyFloat :=
  let e : Int := floorLog2Frac p T - 52
  if 0 ≤ e then { mantissa := rndNearestEven p (T * 2 ^ e.toNat), exponent := e }
  else { mantissa := rndNearestEven (p * 2 ^ (-e).toNat) T, exponent := e }

/-- Correctly rounded binary64 product x * 100 (100 is exactly
representable, so the exact product is x.mantissa * 100 at the same
exponent, renormalised to at most 53 mantissa bits). -/
def fpMul100 (x : PyFloat) : PyFloat :=
  let raw := x.mantissa * 100
  let shift := bitLen raw - 53
  if shift = 0 then { mantissa := raw, exponent := x.exponent }
  else { mantissa := rndNearestEven raw (2 ^ shift), exponent := x.exponent + shift }

/-- Truncation int(x) of a nonnegative float, which is its floor. -/
def fpFloor (x : PyFloat) : Nat :=
  if 0 ≤ x.exponent then x.mantissa * 2 ^ x.exponent.toNat
  else x.mantissa / 2 ^ (-x.exponent).toNat

/-- The progress value sent for a chunk:
int((start_page + pages_per_pdf) / total_pages * 100) computed in binary64,
called with p = start_page + pages_per_pdf.  Never reached with
total_pages = 0 (the loop body does not run then). -/
def pyProgress (p total_pages : Nat) : Nat :=
  fpFloor (fpMul100 (fpDiv p total_pages))

/-- Pages appended to the writer for one chunk: reader.pages[page_num] for
page_num in range(start_page, min(start_page + pages_per_pdf, total_pages)),
that is the slice pages[start_page : min(start_page + k, len(pages))]. -/
def chunkPages {α : Type} (pages : List α) (start_page k : Nat) : List α :=
  (pages.take (min (start_page + k) pages.length)).drop start_page

/-- Denotation of range(0, stop, step) for step ≥ 1: the start pages
0, step, 2 * step, ... below stop; Python documents its length as
ceil(stop / step) = (stop + step - 1) / step. -/
def pyRange (stop step : Nat) : List Nat :=
  (List.range ((stop + step - 1) / step)).map (fun i => i * step)

/-- Body of the for loop of split_pdf over the remaining chunk start pages.
For each start page: build the chunk, form the output path from the current
sub_pdf_num, increment sub_pdf_num, send the progress value, then poll the
cancel flag once and break if it is set.  cancelDuring chunkIdx tells
whether a cancellation request arrives while chunk chunkIdx is processed
(the flag is only ever set, never cleared, during a run). -/
def split_loop {α : Type} (pages : List α) (total_pages : Nat) (cancelDuring : Nat → Bool) :
    List Nat → Nat → PDFSplitter → List (String × List α) × List Nat × PDFSplitter
  | [], _, st => ([], [], st)
  | start_page :: rest, chunkIdx, st =>
    let writerPages := chunkPages pages start_page st.pages_per_pdf
    let output_pdf_path := st.output_directory_path ++ "/" ++ toString st.sub_pdf_num ++ ".pdf"
    let st1 : PDFSplitter := { st with sub_pdf_num := st.sub_pdf_num + 1 }
    let progress := pyProgress (start_page + st.pages_per_pdf) total_pages
    let st2 : PDFSplitter := { st1 with cancel := st1.cancel || cancelDuring chunkIdx }
    if st2.cancel then
      ([(output_pdf_path, writerPages)], [progress], st2)
    else
      let r := split_loop pages total_pages cancelDuring rest (chunkIdx + 1) st2
      ((output_pdf_path, writerPages) :: r.1, progress :: r.2.1, r.2.2)

/-- PDFSplitter.split_pdf.  pages is the page list of the document at
input_pdf_path (total_pages = len(reader.pages)); sub_pdf_num is set to 1,
then the loop runs over range(0, total_pages, pages_per_pdf).  The returned
triple holds the files written (path with the page list written there), the
progress values sent, and the final splitter state.  Except.error models
the ValueError range raises when the step pages_per_pdf is 0. -/
def split_pdf {α : Type} (pages : List α) (cancelDuring : Nat → Bool) (st : PDFSplitter) :
    Except String (List (String × List α) × List Nat × PDFSplitter) :=
  if st.pages_per_pdf = 0 then
    Except.error "ValueError: range() arg 3 must not be zero"
  else
    Except.ok (split_loop pages pages.length cancelDuring
      (pyRange pages.length st.pages_per_pdf) 0 { st with sub_pdf_num := 1 })

/-- Files written by the split loop when it runs without cancellation over
the given chunk start pages, the counter sub_pdf_num starting at n. -/
def filesFor {α : Type} (outDir : String) (k : Nat) (pages : List α) :
    Nat → List Nat → List (String × List α)
  | _, [] => []
  | n, s :: rest =>
    (outDir ++ "/" ++ toString n ++ ".pdf", chunkPages pages s k) ::
      filesFor outDir k pages (n + 1) rest

/-- str.split(sep) for a single separator character, on character lists:
empty parts are kept, and splitting the empty string gives one empty
part. -/
def splitChars (sep : Char) : List Char → List (List Char)
  | [] => [[]]
  | a :: rest =>
    let r := splitChars sep rest
    if a = sep then [] :: r
    else (a :: r.headD []) :: r.tail

/-- str.split(sep) on strings. -/
def pySplit (sep : Char) (s : String) : List String :=
  (splitChars sep s.data).map (fun l => String.mk l)

/-- os.path.basename for slash separated paths: the part after the last
slash. -/
def basename (p : String) : String :=
  (pySplit '/' p).getLastD ""

/-- os.path.dirname for slash separated relative paths: the part before the
last slash (empty when there is none). -/
def dirname (p : String) : String :=
  String.intercalate "/" (pySplit '/' p).dropLast

/-- MainWindow.zip_pdf, with the file system abstracted: walk is the
os.walk listing of the output directory, a list of (root, files in root)
pairs covering it recursively.  Returns the archive path
f"(parent_directory)/(basename(file_name_no_extension)).zip" where
file_name_no_extension = os.path.basename(input).split(".")[0], and the
archive entries as (arcname, source path) pairs: arcname is the bare file
name and the source is os.path.join(root, file_name).  The progress dialog
is presentation state and is not modelled; its cancel button only breaks
the inner loop of one directory. -/
def zip_pdf (input_pdf_path output_directory_path : String)
    (walk : List (String × List String)) : String × List (String × String) :=
  let parent_directory := dirname output_directory_path
  let file_name_no_extension := (pySplit '.' (basename input_pdf_path)).headD ""
  let zip_path := parent_directory ++ "/" ++ basename file_name_no_extension ++ ".zip"
  (zip_path,
    (walk.map (fun rootFiles =>
      rootFiles.2.map (fun file_name => (file_name, rootFiles.1 ++ "/" ++ file_name)))).flatten)

/-- Modelled from the specification words: the archive is named
basename(inputPath without extension) plus .zip, placed in the parent
directory of the output directory.  Removing the extension removes the
final dot separated component when there is one. -/
def specArchiveName (input_pdf_path output_directory_path : String) : String :=
  let b := basename input_pdf_path
  let parts := pySplit '.' b
  let stem := if parts.length ≤ 1 then b else String.intercalate "." parts.dropLast
  dirname output_directory_path ++ "/" ++ stem ++ ".zip"

/-! ## Claim C6 and C10: reset and cancel -/

/-- Claim C6: after any sequence of operations, defaultAttributes (the reset
operation) restores every field of the splitter state to its default:
empty input path, empty output directory, pages_per_pdf = 1,
compress_zip = false, sub_pdf_num = 0, cancel = false. -/
theorem defaultAttributes_restores_defaults (s : PDFSplitter) :
    (defaultAttributes s).input_pdf_path = "" ∧
    (defaultAttributes s).output_directory_path = "" ∧
    (defaultAttributes s).pages_per_pdf = 1 ∧
    (defaultAttributes s).compress_zip = false ∧
    (defaultAttributes s).sub_pdf_num = 0 ∧
    (defaultAttributes s).cancel = false :=
  ⟨rfl, rfl, rfl, rfl, rfl, rfl⟩

/-- Claim C10: cancel_progress sets the cancel flag, is idempotent, and
leaves every other field of the splitter state unchanged. -/
theorem cancel_progress_sets_only_cancel (s : PDFSplitter) :
    (cancel_progress s).cancel = true ∧
    cancel_progress (cancel_progress s) = cancel_progress s ∧
    (cancel_progress s).input_pdf_path = s.input_pdf_path ∧
    (cancel_progress s).output_directory_path = s.output_directory_path ∧
    (cancel_progress s).pages_per_pdf = s.pages_per_pdf ∧
    (cancel_progress s).compress_zip = s.compress_zip ∧
    (cancel_progress s).sub_pdf_num = s.sub_pdf_num :=
  ⟨rfl, rfl, rfl, rfl, rfl, rfl, rfl⟩

/-! ## Claim C5: check_pdf -/

/-- Counterexample to claim C5: check_pdf does raise for a path that does
not exist.  PdfReader on a missing path raises FileNotFoundError, which is
not a PdfReadError and escapes the except clause, so check_pdf propagates
it instead of returning a Bool. -/
theorem check_pdf_missing_file_propagates :
    check_pdf (fun _ => PdfReadOutcome.otherError "FileNotFoundError") "missing.pdf"
        = Except.error "FileNotFoundError" ∧
    (check_pdf (fun _ => PdfReadOutcome.otherError "FileNotFoundError") "missing.pdf").toOption
        = none :=
  ⟨rfl, rfl⟩

/-- Claim C5, amended: check_pdf returns true when the file parses as a
PDF and false when parsing fails with the recognized PdfReadError; any
other exception (such as FileNotFoundError for a missing or unreadable
path) is not caught and propagates to the caller. -/
theorem check_pdf_outcomes (reader : String → PdfReadOutcome) (pdf : String) :
    (∀ n, reader pdf = PdfReadOutcome.ok n → check_pdf reader pdf = Except.ok true) ∧
    (reader pdf = PdfReadOutcome.pdfReadError → check_pdf reader pdf = Except.ok false) ∧
    (∀ msg, reader pdf = PdfReadOutcome.otherError msg →
      check_pdf reader pdf = Except.error msg) := by
  refine ⟨fun n h => ?_, fun h => ?_, fun msg h => ?_⟩ <;> simp [check_pdf, h]

/-- Witness for check_pdf_outcomes on a concrete reader behaviour. -/
theorem check_pdf_outcomes_witness :
    check_pdf (fun p => if p = "good.pdf" then PdfReadOutcome.ok 3
        else if p = "bad.pdf" then PdfReadOutcome.pdfReadError
        else PdfReadOutcome.otherError "FileNotFoundError") "good.pdf" = Except.ok true ∧
    check_pdf (fun p => if p = "good.pdf" then PdfReadOutcome.ok 3
        else if p = "bad.pdf" then PdfReadOutcome.pdfReadError
        else PdfReadOutcome.otherError "FileNotFoundError") "bad.pdf" = Except.ok false ∧
    check_pdf (fun p => if p = "good.pdf" then PdfReadOutcome.ok 3
        else if p = "bad.pdf" then PdfReadOutcome.pdfReadError
        else PdfReadOutcome.otherError "FileNotFoundError") "nope.pdf"
      = Except.error "FileNotFoundError" :=
  ⟨(check_pdf_outcomes _ "good.pdf").1 3 rfl,
   (check_pdf_outcomes _ "bad.pdf").2.1 rfl,
   (check_pdf_outcomes _ "nope.pdf").2.2 "FileNotFoundError" rfl⟩

/-! ## Helper lemmas about lists and chunk arithmetic -/

/-- dropLast commutes with map. -/
theorem list_dropLast_map {α β : Type} (f : α → β) :
    ∀ l : List α, (l.map f).dropLast = l.dropLast.map f := by
  intro l
  induction l with
  | nil => rfl
  | cons a rest ih =>
    cases rest with
    | nil => rfl
    | cons c rest2 =>
      simp only [List.map_cons, List.dropLast_cons₂, ← ih, List.map_cons]

/-- dropLast of an initial segment of the naturals. -/
theorem range_dropLast (m : Nat) : (List.range m).dropLast = List.range (m - 1) := by
  cases m with
  | zero => rfl
  | succ m2 =>
    rw [List.range_succ, Nat.add_sub_cancel]
    exact List.dropLast_concat

/-- getLastD of a nonempty list is one of its elements. -/
theorem list_getLastD_mem {β : Type} : ∀ (l : List β) (d : β), l ≠ [] → l.getLastD d ∈ l := by
  intro l
  induction l with
  | nil => intro d h; exact absurd rfl h
  | cons a rest ih =>
    intro d h
    cases rest with
    | nil => simp
    | cons c t =>
      have h2 := ih a (by simp)
      rw [List.getLastD_cons]
      exact List.mem_cons_of_mem a h2

/-- The slice written for a chunk is the k pages of the source starting at
start_page. -/
theorem chunkPages_eq_drop_take {α : Type} (pages : List α) (s k : Nat) :
    chunkPages pages s k = (pages.drop s).take k := by
  unfold chunkPages
  rw [List.drop_take]
  apply List.take_eq_take.2
  simp only [List.length_drop]
  omega

/-- One file is written per chunk start. -/
theorem filesFor_length {α : Type} (b : String) (k : Nat) (pages : List α) :
    ∀ (starts : List Nat) (n : Nat), (filesFor b k pages n starts).length = starts.length := by
  intro starts
  induction starts with
  | nil => intro n; rfl
  | cons s rest ih => intro n; simp [filesFor, ih]

/-- The output paths count up from the initial sub_pdf_num. -/
theorem filesFor_map_fst {α : Type} (b : String) (k : Nat) (pages : List α) :
    ∀ (starts : List Nat) (n : Nat),
      (filesFor b k pages n starts).map Prod.fst =
        (List.range starts.length).map (fun i => b ++ "/" ++ toString (n + i) ++ ".pdf") := by
  intro starts
  induction starts with
  | nil => intro n; rfl
  | cons s rest ih =>
    intro n
    simp only [filesFor, List.map, List.length_cons, List.range_succ_eq_map, List.map_cons,
      List.map_map]
    congr 1
    rw [ih (n + 1)]
    apply List.map_congr_left
    intro i _
    simp only [Function.comp]
    have h5 : n + 1 + i = n + (i + 1) := by omega
    rw [h5]

/-- The page lists written are the chunk slices at the given starts. -/
theorem filesFor_map_snd {α : Type} (b : String) (k : Nat) (pages : List α) :
    ∀ (starts : List Nat) (n : Nat),
      (filesFor b k pages n starts).map Prod.snd =
        starts.map (fun s => chunkPages pages s k) := by
  intro starts
  induction starts with
  | nil => intro n; rfl
  | cons s rest ih => intro n; simp [filesFor, ih]

/-- Rewriting the chunk slices over the start pages i * k. -/
theorem pyRange_map_chunk {α : Type} (pages : List α) (k m : Nat) :
    ((List.range m).map (fun i => i * k)).map (fun s => chunkPages pages s k) =
      (List.range m).map (fun i => (pages.drop (i * k)).take k) := by
  rw [List.map_map]
  apply List.map_congr_left
  intro i _
  simp only [Function.comp]
  rw [chunkPages_eq_drop_take]

/-- ceil(T / k) chunks of size k cover all T pages. -/
theorem ceil_div_mul_ge (T k : Nat) (hk : 0 < k) : T ≤ (T + k - 1) / k * k := by
  rcases Nat.eq_zero_or_pos T with h0 | hT
  · subst h0; simp
  · have h1 : (T - 1) % k + k * ((T - 1) / k) = T - 1 := Nat.mod_add_div _ _
    have h2 : (T - 1) % k < k := Nat.mod_lt _ hk
    have h3 : (T + k - 1) / k = (T - 1) / k + 1 := by
      have h4 : T + k - 1 = (T - 1) + k := by omega
      rw [h4, Nat.add_div_right _ hk]
    rw [h3]
    have h5 : ((T - 1) / k + 1) * k = (T - 1) / k * k + k := by rw [Nat.succ_mul]
    have h6 : (T - 1) / k * k = k * ((T - 1) / k) := Nat.mul_comm _ _
    omega

/-- Every chunk except possibly the last one is full: its start leaves at
least k pages before T. -/
theorem chunk_start_bound (T k i : Nat) (hk : 0 < k) (hi : i + 1 < (T + k - 1) / k) :
    i * k + k ≤ T := by
  have h1 : (T + k - 1) / k * k ≤ T + k - 1 := Nat.div_mul_le_self _ _
  have h2 : (i + 2) * k ≤ (T + k - 1) / k * k := Nat.mul_le_mul_right k (by omega)
  have h3 : (i + 2) * k = i * k + 2 * k := by ring
  omega

/-- Concatenating the k sized slices starting at s, s + k, s + 2k, ...
recovers the suffix of the source from s on, provided the m chunks reach the
end of the document. -/
theorem chunks_flatten {α : Type} (pages : List α) (k : Nat) :
    ∀ (m s : Nat), pages.length ≤ s + m * k →
      (((List.range m).map (fun i => s + i * k)).map
          (fun t => (pages.drop t).take k)).flatten = pages.drop s := by
  intro m
  induction m with
  | zero =>
    intro s hs
    simp only [List.range_zero, List.map_nil, List.flatten_nil]
    exact (List.drop_eq_nil_of_le (by simpa using hs)).symm
  | succ m ih =>
    intro s hs
    have hsm : (m + 1) * k = m * k + k := by ring
    rw [List.range_succ_eq_map]
    simp only [List.map_cons, List.map_map, List.flatten_cons, Nat.zero_mul, Nat.add_zero]
    have hmap : (List.range m).map ((fun t => (pages.drop t).take k) ∘
        ((fun i => s + i * k) ∘ Nat.succ)) =
        (List.range m).map ((fun t => (pages.drop t).take k) ∘ (fun i => (s + k) + i * k)) := by
      apply List.map_congr_left
      intro i _
      simp only [Function.comp]
      have h6 : s + Nat.succ i * k = s + k + i * k := by
        have h7 : Nat.succ i * k = i * k + k := Nat.succ_mul i k
        omega
      rw [h6]
    rw [hmap]
    have hrec := ih (s + k) (by omega)
    rw [List.map_map] at hrec
    rw [hrec]
    have hdd : pages.drop (s + k) = (pages.drop s).drop k := by
      rw [List.drop_drop, Nat.add_comm]
    rw [hdd, List.take_append_drop]

/-! ## Behaviour of the split loop -/

/-- Closed form of the split loop when no cancellation request ever
arrives: every chunk start is processed, one file and one progress value
per chunk, and sub_pdf_num advances by the number of chunks. -/
theorem split_loop_noCancel {α : Type} (pages : List α) (T : Nat) (a b : String) (k : Nat)
    (z : Bool) :
    ∀ (starts : List Nat) (j n : Nat),
      split_loop pages T (fun _ => false) starts j ⟨a, b, k, z, n, false⟩ =
        (filesFor b k pages n starts,
         starts.map (fun s => pyProgress (s + k) T),
         ⟨a, b, k, z, n + starts.length, false⟩) := by
  intro starts
  induction starts with
  | nil => intro j n; simp [split_loop, filesFor]
  | cons s rest ih =>
    intro j n
    have harith : n + (rest.length + 1) = n + 1 + rest.length := by omega
    simp only [split_loop, filesFor, List.map, List.length_cons, Bool.or_false, harith]
    rw [ih (j + 1) (n + 1)]
    simp

/-- Files and progress values of the split loop when a cancellation request
arrives during chunk c (and the sticky flag stays set from then on): the
loop processes the starts up to and including index c and stops. -/
theorem split_loop_cancelFrom {α : Type} (pages : List α) (T : Nat) (a b : String) (k : Nat)
    (z : Bool) (c : Nat) :
    ∀ (starts : List Nat) (j n : Nat), j ≤ c →
      (split_loop pages T (fun x => decide (c ≤ x)) starts j ⟨a, b, k, z, n, false⟩).1 =
          filesFor b k pages n (starts.take (c + 1 - j)) ∧
      (split_loop pages T (fun x => decide (c ≤ x)) starts j ⟨a, b, k, z, n, false⟩).2.1 =
          (starts.take (c + 1 - j)).map (fun s => pyProgress (s + k) T) := by
  intro starts
  induction starts with
  | nil => intro j n hj; simp [split_loop, filesFor]
  | cons s rest ih =>
    intro j n hj
    by_cases hcj : c ≤ j
    · have hdec : decide (c ≤ j) = true := decide_eq_true hcj
      have hc1 : c + 1 - j = 1 := by omega
      simp [split_loop, filesFor, hdec, hc1]
    · have hdec : decide (c ≤ j) = false := decide_eq_false hcj
      have htake : c + 1 - j = (c - j) + 1 := by omega
      have htake2 : c + 1 - (j + 1) = c - j := by omega
      obtain ⟨ih1, ih2⟩ := ih (j + 1) (n + 1) (by omega)
      rw [htake2] at ih1 ih2
      simp only [split_loop, hdec, Bool.or_false, htake, List.take_succ_cons, filesFor,
        List.map, Bool.false_eq_true, if_false]
      exact ⟨by rw [ih1], by rw [ih2]⟩

/-- Under any cancellation schedule and from any state, the final
sub_pdf_num exceeds its starting value by exactly the number of files the
loop wrote: the counter is incremented once per chunk. -/
theorem split_loop_sub_pdf_num {α : Type} (pages : List α) (T : Nat) (f : Nat → Bool) :
    ∀ (starts : List Nat) (j : Nat) (st : PDFSplitter),
      (split_loop pages T f starts j st).2.2.sub_pdf_num =
        st.sub_pdf_num + (split_loop pages T f starts j st).1.length := by
  intro starts
  induction starts with
  | nil => intro j st; simp [split_loop]
  | cons s rest ih =>
    intro j st
    simp only [split_loop]
    cases hb : (st.cancel || f j)
    · simp only [Bool.false_eq_true, if_false, List.length_cons]
      rw [ih (j + 1)]
      simp only [List.length_cons]
      omega
    · simp

/-! ## Helper lemmas about character splitting and path names -/

/-- splitChars always yields at least one part. -/
theorem splitChars_ne_nil (sep : Char) : ∀ l : List Char, splitChars sep l ≠ [] := by
  intro l
  cases l with
  | nil => simp [splitChars]
  | cons a rest =>
    simp only [splitChars]
    by_cases h : a = sep <;> simp [h]

/-- No part produced by splitChars contains the separator. -/
theorem splitChars_not_mem (sep : Char) :
    ∀ (l : List Char) (part : List Char), part ∈ splitChars sep l → sep ∉ part := by
  intro l
  induction l with
  | nil =>
    intro part hp
    simp [splitChars] at hp
    simp [hp]
  | cons a rest ih =>
    intro part hp
    simp only [splitChars] at hp
    by_cases h : a = sep
    · rw [if_pos h] at hp
      rcases List.mem_cons.1 hp with h1 | h1
      · simp [h1]
      · exact ih part h1
    · rw [if_neg h] at hp
      rcases List.mem_cons.1 hp with h1 | h1
      · subst h1
        intro hmem
        rcases List.mem_cons.1 hmem with h2 | h2
        · exact h h2.symm
        · have hhd : (splitChars sep rest).headD [] ∈ splitChars sep rest := by
            cases hr : splitChars sep rest with
            | nil => exact absurd hr (splitChars_ne_nil sep rest)
            | cons r0 rs => simp
          exact ih _ hhd h2
      · have htl : part ∈ splitChars sep rest := by
          cases hr : splitChars sep rest with
          | nil => exact absurd hr (splitChars_ne_nil sep rest)
          | cons r0 rs =>
            rw [hr] at h1
            exact List.mem_cons_of_mem r0 h1
        exact ih part htl

/-- Every character of a part produced by splitChars comes from the split
list. -/
theorem splitChars_mem_subset (sep : Char) :
    ∀ (l : List Char) (part : List Char) (x : Char),
      part ∈ splitChars sep l → x ∈ part → x ∈ l := by
  intro l
  induction l with
  | nil =>
    intro part x hp hx
    simp [splitChars] at hp
    subst hp
    simp at hx
  | cons a rest ih =>
    intro part x hp hx
    simp only [splitChars] at hp
    by_cases h : a = sep
    · rw [if_pos h] at hp
      rcases List.mem_cons.1 hp with h1 | h1
      · subst h1; simp at hx
      · exact List.mem_cons_of_mem a (ih part x h1 hx)
    · rw [if_neg h] at hp
      rcases List.mem_cons.1 hp with h1 | h1
      · subst h1
        rcases List.mem_cons.1 hx with h2 | h2
        · rw [h2]; exact List.mem_cons_self _ _
        · have hhd : (splitChars sep rest).headD [] ∈ splitChars sep rest := by
            cases hr : splitChars sep rest with
            | nil => exact absurd hr (splitChars_ne_nil sep rest)
            | cons r0 rs => simp
          exact List.mem_cons_of_mem a (ih _ x hhd h2)
      · have htl : part ∈ splitChars sep rest := by
          cases hr : splitChars sep rest with
          | nil => exact absurd hr (splitChars_ne_nil sep rest)
          | cons r0 rs =>
            rw [hr] at h1
            exact List.mem_cons_of_mem r0 h1
        exact List.mem_cons_of_mem a (ih part x htl hx)

/-- Splitting a list free of the separator yields that single part. -/
theorem splitChars_of_not_mem (sep : Char) :
    ∀ l : List Char, sep ∉ l → splitChars sep l = [l] := by
  intro l
  induction l with
  | nil => intro; rfl
  | cons a rest ih =>
    intro h
    have ha : a ≠ sep := fun he => h (he ▸ List.mem_cons_self a rest)
    have hrest : sep ∉ rest := fun hm => h (List.mem_cons_of_mem a hm)
    simp only [splitChars, if_neg ha, ih hrest]
    rfl

/-- A split with a single part recovers the whole list. -/
theorem splitChars_singleton (sep : Char) :
    ∀ (l m : List Char), splitChars sep l = [m] → m = l := by
  intro l
  induction l with
  | nil =>
    intro m h
    simp [splitChars] at h
    exact h
  | cons a rest ih =>
    intro m h
    simp only [splitChars] at h
    by_cases ha : a = sep
    · rw [if_pos ha] at h
      obtain ⟨h1, h2⟩ := List.cons_eq_cons.mp h
      exact absurd h2 (splitChars_ne_nil sep rest)
    · rw [if_neg ha] at h
      obtain ⟨h1, h2⟩ := List.cons_eq_cons.mp h
      cases hr : splitChars sep rest with
      | nil => exact absurd hr (splitChars_ne_nil sep rest)
      | cons r0 rs =>
        rw [hr] at h1 h2
        simp at h1 h2
        subst h2
        have := ih r0 (by rw [hr])
        subst this
        rw [← h1]

/-- basename leaves a path without slashes unchanged. -/
theorem basename_of_no_slash (s : String) (h : '/' ∉ s.data) : basename s = s := by
  unfold basename pySplit
  rw [splitChars_of_not_mem '/' s.data h]
  rfl

/-- The basename of any path contains no slash. -/
theorem basename_data_no_slash (p : String) : '/' ∉ (basename p).data := by
  unfold basename pySplit
  have hne : (splitChars '/' p.data).map (fun l => String.mk l) ≠ [] := by
    cases hr : splitChars '/' p.data with
    | nil => exact absurd hr (splitChars_ne_nil '/' p.data)
    | cons r0 rs => simp
  have hmem := list_getLastD_mem ((splitChars '/' p.data).map (fun l => String.mk l)) "" hne
  obtain ⟨part, hpart, heq⟩ := List.mem_map.1 hmem
  rw [heq.symm]
  exact splitChars_not_mem '/' p.data part hpart

/-- Dot separated components of a basename contain no slash either. -/
theorem mem_pySplit_no_slash (p q : String) (hq : q ∈ pySplit '.' (basename p)) :
    ('/' : Char) ∉ q.data := by
  unfold pySplit at hq
  obtain ⟨part, hpart, heq⟩ := List.mem_map.1 hq
  rw [heq.symm]
  intro hx
  exact basename_data_no_slash p (splitChars_mem_subset '.' (basename p).data part '/' hpart hx)

/-- str.split never yields an empty list of parts. -/
theorem pySplit_ne_nil (sep : Char) (s : String) : pySplit sep s ≠ [] := by
  unfold pySplit
  cases hr : splitChars sep s.data with
  | nil => exact absurd hr (splitChars_ne_nil sep s.data)
  | cons r0 rs => simp

/-- str.split with a single part recovers the string. -/
theorem pySplit_singleton (sep : Char) (s q : String) (h : pySplit sep s = [q]) : q = s := by
  unfold pySplit at h
  cases hr : splitChars sep s.data with
  | nil => exact absurd hr (splitChars_ne_nil sep s.data)
  | cons r0 rs =>
    rw [hr] at h
    simp at h
    obtain ⟨h1, h2⟩ := h
    have h3 : splitChars sep s.data = [r0] := by rw [hr, h2]
    have h4 := splitChars_singleton sep s.data r0 h3
    rw [← h1, h4]

/-! ## Claim C1: number and names of the output files -/

/-- Claim C1: for every document with T pages and pagesPerChunk k ≥ 1, a
run of split with no cancellation writes exactly ceil(T / k) output files,
named outputDirectory/1.pdf, 2.pdf, ... in 1 based sequential order without
zero padding; with T = 0 the loop runs zero times, no file is written and
no division error is raised (the run still returns normally). -/
theorem split_pdf_writes_ceil_chunks {α : Type} (pages : List α) (st : PDFSplitter)
    (hk : 1 ≤ st.pages_per_pdf) (hc : st.cancel = false) :
    ∃ files events stFinal,
      split_pdf pages (fun _ => false) st = Except.ok (files, events, stFinal) ∧
      files.length = (pages.length + st.pages_per_pdf - 1) / st.pages_per_pdf ∧
      files.map Prod.fst = (List.range files.length).map
        (fun i => st.output_directory_path ++ "/" ++ toString (i + 1) ++ ".pdf") ∧
      (pages.length = 0 → files = []) := by
  obtain ⟨a, b, k, z, n, cv⟩ := st
  dsimp only at hk hc ⊢
  subst hc
  unfold split_pdf
  dsimp only
  rw [if_neg (by omega)]
  rw [split_loop_noCancel]
  refine ⟨_, _, _, rfl, ?_, ?_, ?_⟩
  · rw [filesFor_length]
    simp [pyRange]
  · rw [filesFor_map_fst, filesFor_length]
    apply List.map_congr_left
    intro i _
    have h5 : 1 + i = i + 1 := by omega
    rw [h5]
  · intro h0
    have h6 : (k - 1) / k = 0 := Nat.div_eq_of_lt (by omega)
    simp [pyRange, h0, h6, filesFor]

/-- Witness for split_pdf_writes_ceil_chunks: a five page document split
two pages at a time. -/
theorem split_pdf_writes_ceil_chunks_witness :
    ∃ files events stFinal,
      split_pdf [10, 20, 30, 40, 50] (fun _ => false)
          ⟨"in.pdf", "out", 2, false, 7, false⟩ = Except.ok (files, events, stFinal) ∧
      files.length = (([10, 20, 30, 40, 50] : List Nat).length + 2 - 1) / 2 ∧
      files.map Prod.fst = (List.range files.length).map
        (fun i => "out" ++ "/" ++ toString (i + 1) ++ ".pdf") ∧
      (([10, 20, 30, 40, 50] : List Nat).length = 0 → files = []) :=
  split_pdf_writes_ceil_chunks [10, 20, 30, 40, 50]
    ⟨"in.pdf", "out", 2, false, 7, false⟩ (by decide) rfl

/-! ## Claim C2: contents of the chunks -/

/-- Claim C2: in a run without cancellation, chunk number n (zero based)
contains exactly the source pages from n * k up to min(n * k + k, T) - 1 in
original order — the slice (pages.drop (n * k)).take k — so concatenating
the pages of the output files in filename order reproduces the original
page sequence exactly; every file holds at most k pages and all but
possibly the last hold exactly k. -/
theorem split_pdf_chunk_contents {α : Type} (pages : List α) (st : PDFSplitter)
    (hk : 1 ≤ st.pages_per_pdf) (hc : st.cancel = false) :
    ∃ files events stFinal,
      split_pdf pages (fun _ => false) st = Except.ok (files, events, stFinal) ∧
      files.map Prod.snd = (List.range files.length).map
        (fun i => (pages.drop (i * st.pages_per_pdf)).take st.pages_per_pdf) ∧
      (files.map Prod.snd).flatten = pages ∧
      (∀ f ∈ files, f.2.length ≤ st.pages_per_pdf) ∧
      (files.map (fun f => f.2.length)).dropLast =
        List.replicate (files.length - 1) st.pages_per_pdf := by
  obtain ⟨a, b, k, z, n, cv⟩ := st
  dsimp only at hk hc ⊢
  subst hc
  unfold split_pdf
  dsimp only
  rw [if_neg (by omega)]
  rw [split_loop_noCancel]
  have hsnd : (filesFor b k pages 1 (pyRange pages.length k)).map Prod.snd =
      (List.range ((pages.length + k - 1) / k)).map
        (fun i => (pages.drop (i * k)).take k) := by
    rw [filesFor_map_snd, pyRange, pyRange_map_chunk]
  have hlen : (filesFor b k pages 1 (pyRange pages.length k)).length =
      (pages.length + k - 1) / k := by
    rw [filesFor_length]
    simp [pyRange]
  refine ⟨_, _, _, rfl, ?_, ?_, ?_, ?_⟩
  · rw [hsnd, hlen]
  · rw [hsnd]
    have hcast : (List.range ((pages.length + k - 1) / k)).map
        (fun i => (pages.drop (i * k)).take k) =
        (((List.range ((pages.length + k - 1) / k)).map (fun i => 0 + i * k)).map
          (fun t => (pages.drop t).take k)) := by
      rw [List.map_map]
      apply List.map_congr_left
      intro i _
      simp [Function.comp]
    rw [hcast, chunks_flatten pages k _ 0 (by
      have h8 := ceil_div_mul_ge pages.length k (by omega)
      omega)]
    rfl
  · intro f hf
    have hmem : f.2 ∈ (filesFor b k pages 1 (pyRange pages.length k)).map Prod.snd :=
      List.mem_map_of_mem Prod.snd hf
    rw [hsnd] at hmem
    obtain ⟨i, hi, heq⟩ := List.mem_map.1 hmem
    rw [← heq, List.length_take]
    exact min_le_left _ _
  · have hcomp : (filesFor b k pages 1 (pyRange pages.length k)).map (fun f => f.2.length) =
        ((filesFor b k pages 1 (pyRange pages.length k)).map Prod.snd).map
          (fun l => l.length) := by
      rw [List.map_map]
      rfl
    rw [hcomp, hsnd, List.map_map, hlen]
    rw [list_dropLast_map, range_dropLast, List.eq_replicate_iff]
    constructor
    · simp
    · intro v hv
      obtain ⟨i, hi, heq⟩ := List.mem_map.1 hv
      have hi3 : i < (pages.length + k - 1) / k - 1 := List.mem_range.1 hi
      have hb := chunk_start_bound pages.length k i (by omega) (by omega)
      rw [← heq]
      simp only [Function.comp, List.length_take, List.length_drop]
      omega

/-- Witness for split_pdf_chunk_contents: a five page document split two
pages at a time. -/
theorem split_pdf_chunk_contents_witness :
    ∃ files events stFinal,
      split_pdf [10, 20, 30, 40, 50] (fun _ => false)
          ⟨"in.pdf", "out", 2, false, 0, false⟩ = Except.ok (files, events, stFinal) ∧
      files.map Prod.snd = (List.range files.length).map
        (fun i => (([10, 20, 30, 40, 50] : List Nat).drop (i * 2)).take 2) ∧
      (files.map Prod.snd).flatten = [10, 20, 30, 40, 50] ∧
      (∀ f ∈ files, f.2.length ≤ 2) ∧
      (files.map (fun f => f.2.length)).dropLast = List.replicate (files.length - 1) 2 :=
  split_pdf_chunk_contents [10, 20, 30, 40, 50]
    ⟨"in.pdf", "out", 2, false, 0, false⟩ (by decide) rfl

/-! ## Claim C3: the progress values -/

/-- Counterexample to claim C3: the progress value is computed in binary64
floats and truncated by int(...), which does not always equal the exact
floor((startPage + k) / T * 100).  Splitting a 50 page document with
k = 29 emits 57 for the first chunk, while the exact formula gives
floor(29 / 50 * 100) = 58 (in Python, 29 / 50 * 100 evaluates to
57.99999999999999). -/
theorem split_pdf_progress_not_exact_floor :
    (split_pdf (List.range 50) (fun _ => false)
        ⟨"in.pdf", "out", 29, false, 0, false⟩).toOption.map (fun r => r.2.1)
      = some [57, 115] ∧
    (0 + 29) * 100 / 50 = 58 ∧
    Nat.beq 57 58 = false := by
  refine ⟨?_, ?_, ?_⟩ <;> decide

/-- Claim C3, amended: in a run without cancellation each chunk emits
exactly one progress event, whose value is the binary64 evaluation
int((startPage + k) / T * 100) — pyProgress — rather than the exact
floor; the two agree except when float rounding lands just below an exact
integer (see the counterexample), and the value can exceed 100 on the
final chunk when T is not a multiple of k: a 10 page document with k = 4
yields the values 40, 80, 120 in that order. -/
theorem split_pdf_progress_events {α : Type} (pages : List α) (st : PDFSplitter)
    (hk : 1 ≤ st.pages_per_pdf) (hc : st.cancel = false) :
    ∃ files events stFinal,
      split_pdf pages (fun _ => false) st = Except.ok (files, events, stFinal) ∧
      events = (pyRange pages.length st.pages_per_pdf).map
        (fun s => pyProgress (s + st.pages_per_pdf) pages.length) ∧
      events.length = files.length := by
  obtain ⟨a, b, k, z, n, cv⟩ := st
  dsimp only at hk hc ⊢
  subst hc
  unfold split_pdf
  dsimp only
  rw [if_neg (by omega)]
  rw [split_loop_noCancel]
  refine ⟨_, _, _, rfl, rfl, ?_⟩
  rw [filesFor_length, List.length_map]

/-- Witness for split_pdf_progress_events: the 10 page, k = 4 scenario,
with the emitted values evaluating to 40, 80, 120 (the last exceeding
100). -/
theorem split_pdf_progress_events_witness :
    (∃ files events stFinal,
      split_pdf (List.range 10) (fun _ => false)
          ⟨"in.pdf", "out", 4, false, 0, false⟩ = Except.ok (files, events, stFinal) ∧
      events = (pyRange (List.range 10).length 4).map
        (fun s => pyProgress (s + 4) (List.range 10).length) ∧
      events.length = files.length) ∧
    (pyRange 10 4).map (fun s => pyProgress (s + 4) 10) = [40, 80, 120] ∧
    100 < 120 :=
  ⟨split_pdf_progress_events (List.range 10)
      ⟨"in.pdf", "out", 4, false, 0, false⟩ (by decide) rfl,
   by decide, by decide⟩

/-! ## Claim C4: cancellation during chunk i -/

/-- Claim C4: if the cancellation request arrives during chunk i (one
based) of a run started with a clear flag — so the sticky flag is seen set
at the poll ending chunk i — the loop stops at the end of chunk i: exactly
i files are written and i progress events sent, the run returns without
error, and every written chunk, the i-th included, is complete (no partial
chunk rollback).  The flag is polled once per chunk, at its end, so the
bound i ≤ ceil(T / k) is all a schedule can reach. -/
theorem split_pdf_cancel_mid_run {α : Type} (pages : List α) (st : PDFSplitter) (i : Nat)
    (hk : 1 ≤ st.pages_per_pdf) (hc : st.cancel = false) (hi : 1 ≤ i)
    (him : i ≤ (pages.length + st.pages_per_pdf - 1) / st.pages_per_pdf) :
    ∃ files events stFinal,
      split_pdf pages (fun j => decide (i - 1 ≤ j)) st = Except.ok (files, events, stFinal) ∧
      files.length = i ∧ events.length = i ∧
      files.map Prod.snd = (List.range i).map
        (fun m => (pages.drop (m * st.pages_per_pdf)).take st.pages_per_pdf) := by
  obtain ⟨a, b, k, z, n, cv⟩ := st
  dsimp only at hk hc him ⊢
  subst hc
  unfold split_pdf
  dsimp only
  rw [if_neg (by omega)]
  obtain ⟨h1, h2⟩ := split_loop_cancelFrom pages pages.length a b k z (i - 1)
    (pyRange pages.length k) 0 1 (by omega)
  rw [show i - 1 + 1 - 0 = i from by omega] at h1 h2
  have htk : (pyRange pages.length k).take i = (List.range i).map (fun m => m * k) := by
    rw [pyRange, ← List.map_take, List.take_range, Nat.min_eq_left him]
  refine ⟨_, _, _, rfl, ?_, ?_, ?_⟩
  · rw [h1, filesFor_length, htk]
    simp
  · rw [h2, htk]
    simp
  · rw [h1, filesFor_map_snd, htk, pyRange_map_chunk]

/-- Witness for split_pdf_cancel_mid_run: cancelling during the second of
three chunks of a 10 page document split four pages at a time. -/
theorem split_pdf_cancel_mid_run_witness :
    ∃ files events stFinal,
      split_pdf (List.range 10) (fun j => decide (2 - 1 ≤ j))
          ⟨"in.pdf", "out", 4, false, 0, false⟩ = Except.ok (files, events, stFinal) ∧
      files.length = 2 ∧ events.length = 2 ∧
      files.map Prod.snd = (List.range 2).map
        (fun m => ((List.range 10).drop (m * 4)).take 4) :=
  split_pdf_cancel_mid_run (List.range 10) ⟨"in.pdf", "out", 4, false, 0, false⟩ 2
    (by decide) rfl (by decide) (by decide)

/-! ## Claim C7: the chunk counter -/

/-- Counterexample to claim C7: sub_pdf_num (chunkCount) is not reset to 0
before a run and does not equal the number of chunks written: split sets it
to 1 on entry and increments it when each filename is allocated, so after a
run that wrote 2 files it holds 3, not 2. -/
theorem sub_pdf_num_not_chunk_count :
    (split_pdf [10, 20] (fun _ => false)
        ⟨"in.pdf", "out", 1, false, 0, false⟩).toOption.map
      (fun r => (r.1.length, r.2.2.sub_pdf_num)) = some (2, 3) ∧
    Nat.beq 3 2 = false := by
  refine ⟨?_, ?_⟩ <;> decide

/-- Claim C7, amended: split sets sub_pdf_num to 1 at the start of every
run and increments it exactly once per chunk written (when the filename of
the chunk is allocated), so whatever the cancellation schedule, the final
value of sub_pdf_num is the number of files written in that run plus
one. -/
theorem sub_pdf_num_tracks_chunks {α : Type} (pages : List α) (f : Nat → Bool)
    (st : PDFSplitter) (hk : 1 ≤ st.pages_per_pdf) :
    ∃ files events stFinal,
      split_pdf pages f st = Except.ok (files, events, stFinal) ∧
      stFinal.sub_pdf_num = files.length + 1 := by
  obtain ⟨a, b, k, z, n, cv⟩ := st
  dsimp only at hk ⊢
  unfold split_pdf
  dsimp only
  rw [if_neg (by omega)]
  refine ⟨_, _, _, rfl, ?_⟩
  have h := split_loop_sub_pdf_num pages pages.length f
    (pyRange pages.length k) 0 ⟨a, b, k, z, 1, cv⟩
  dsimp only at h
  rw [h]
  exact Nat.add_comm _ _

/-- Witness for sub_pdf_num_tracks_chunks: a three page document, two per
chunk, with a cancellation arriving during the first chunk. -/
theorem sub_pdf_num_tracks_chunks_witness :
    ∃ files events stFinal,
      split_pdf [10, 20, 30] (fun j => decide (j = 0))
          ⟨"in.pdf", "out", 2, false, 5, false⟩ = Except.ok (files, events, stFinal) ∧
      stFinal.sub_pdf_num = files.length + 1 :=
  sub_pdf_num_tracks_chunks [10, 20, 30] (fun j => decide (j = 0))
    ⟨"in.pdf", "out", 2, false, 5, false⟩ (by decide)

/-! ## Claim C9: a stale cancellation flag -/

/-- Claim C9: split does not clear the cancellation flag on entry.  If
cancel is already true when split is invoked on a document with at least
one page, the poll at the end of the first chunk sees it set, so exactly
one file is written and one progress event emitted regardless of T, k and
of any further cancellation requests, and the flag is still set when the
run returns (within the splitter, only defaultAttributes clears it). -/
theorem split_pdf_stale_cancel_one_chunk {α : Type} (pages : List α) (f : Nat → Bool)
    (st : PDFSplitter) (hk : 1 ≤ st.pages_per_pdf) (hc : st.cancel = true)
    (hp : pages ≠ []) :
    ∃ files events stFinal,
      split_pdf pages f st = Except.ok (files, events, stFinal) ∧
      files.length = 1 ∧ events.length = 1 ∧ stFinal.cancel = true ∧
      (defaultAttributes stFinal).cancel = false := by
  obtain ⟨a, b, k, z, n, cv⟩ := st
  dsimp only at hk hc ⊢
  subst hc
  unfold split_pdf
  dsimp only
  rw [if_neg (by omega)]
  have hL : 1 ≤ pages.length := List.length_pos.2 hp
  have hm : 1 ≤ (pages.length + k - 1) / k := by
    rw [Nat.le_div_iff_mul_le (by omega)]
    omega
  obtain ⟨m2, hm2⟩ : ∃ m2, (pages.length + k - 1) / k = m2 + 1 :=
    ⟨(pages.length + k - 1) / k - 1, by omega⟩
  rw [pyRange, hm2, List.range_succ_eq_map, List.map_cons]
  simp [split_loop]
  exact ⟨_, _, _, ⟨rfl, rfl, rfl⟩, rfl, rfl, rfl, rfl⟩

/-- Witness for split_pdf_stale_cancel_one_chunk: a four page document, one
page per chunk, invoked with the flag already set. -/
theorem split_pdf_stale_cancel_one_chunk_witness :
    ∃ files events stFinal,
      split_pdf [10, 20, 30, 40] (fun _ => false)
          ⟨"in.pdf", "out", 1, false, 9, true⟩ = Except.ok (files, events, stFinal) ∧
      files.length = 1 ∧ events.length = 1 ∧ stFinal.cancel = true ∧
      (defaultAttributes stFinal).cancel = false :=
  split_pdf_stale_cancel_one_chunk [10, 20, 30, 40] (fun _ => false)
    ⟨"in.pdf", "out", 1, false, 9, true⟩ (by decide) rfl (by decide)

/-! ## Claim C8: the archive -/

/-- Counterexample to claim C8: the archive name is not the basename of the
input with its extension removed.  The code takes the part of the basename
before the FIRST dot (split(".")[0]), so for input docs/report.v2.pdf it
produces work/report.zip where the specification words give
work/report.v2.zip. -/
theorem zip_pdf_archive_name_mismatch :
    (zip_pdf "docs/report.v2.pdf" "work/out" [("work/out", ["1.pdf", "2.pdf"])]).1
        = "work/report.zip" ∧
    specArchiveName "docs/report.v2.pdf" "work/out" = "work/report.v2.zip" ∧
    ("work/report.zip" == "work/report.v2.zip") = false := by
  refine ⟨?_, ?_, ?_⟩ <;> decide

/-- Claim C8, amended: the archive is placed in the parent directory of the
output directory and named after the part of the input basename before the
first dot plus .zip — which matches basename-without-extension exactly when
the basename contains at most one dot — and it contains exactly the files
found recursively under the output directory (every os.walk entry), each
stored under its bare file name with no directory prefix, the data coming
from root/file_name. -/
theorem zip_pdf_archive_spec (input out : String) (walk : List (String × List String))
    (h : (pySplit '.' (basename input)).length ≤ 2) :
    (zip_pdf input out walk).1 = specArchiveName input out ∧
    (zip_pdf input out walk).2.map Prod.fst = (walk.map Prod.snd).flatten ∧
    (zip_pdf input out walk).2.map Prod.snd =
      (walk.map (fun rf => rf.2.map (fun fn => rf.1 ++ "/" ++ fn))).flatten := by
  refine ⟨?_, ?_, ?_⟩
  · unfold zip_pdf specArchiveName
    dsimp only
    rcases hp : pySplit '.' (basename input) with _ | ⟨p1, rest⟩
    · exact absurd hp (pySplit_ne_nil '.' (basename input))
    · cases rest with
      | nil =>
        have hp1 : p1 = basename input := pySplit_singleton '.' (basename input) p1 hp
        have hb := basename_of_no_slash (basename input) (basename_data_no_slash input)
        simp [hp1, hb]
      | cons p2 rest2 =>
        have hr2 : rest2 = [] := by
          rw [hp] at h
          simp only [List.length_cons] at h
          exact List.eq_nil_of_length_eq_zero (by omega)
        subst hr2
        have hns : ('/' : Char) ∉ p1.data :=
          mem_pySplit_no_slash input p1 (by rw [hp]; exact List.mem_cons_self _ _)
        have hb := basename_of_no_slash p1 hns
        have hint : String.intercalate "." [p1] = p1 := rfl
        simp [hb, hint]
  · unfold zip_pdf
    dsimp only
    rw [List.map_flatten]
    congr 1
    rw [List.map_map]
    apply List.map_congr_left
    intro rf _
    simp only [Function.comp]
    rw [List.map_map]
    have hid : (Prod.fst ∘ fun file_name : String =>
        (file_name, rf.1 ++ "/" ++ file_name)) = id := rfl
    rw [hid, List.map_id]
  · unfold zip_pdf
    dsimp only
    rw [List.map_flatten]
    congr 1
    rw [List.map_map]
    apply List.map_congr_left
    intro rf _
    simp only [Function.comp]
    rw [List.map_map]
    rfl

/-- Witness for zip_pdf_archive_spec: archiving a directory holding 1.pdf
and 2.pdf yields exactly the two entries 1.pdf and 2.pdf with no directory
prefix, and the archive name work/in.zip agrees with the specification
reading for the single extension input docs/in.pdf. -/
theorem zip_pdf_archive_spec_witness :
    (zip_pdf "docs/in.pdf" "work/out" [("work/out", ["1.pdf", "2.pdf"])]).1
        = specArchiveName "docs/in.pdf" "work/out" ∧
    (zip_pdf "docs/in.pdf" "work/out" [("work/out", ["1.pdf", "2.pdf"])]).2
        = [("1.pdf", "work/out/1.pdf"), ("2.pdf", "work/out/2.pdf")] ∧
    (zip_pdf "docs/in.pdf" "work/out" [("work/out", ["1.pdf", "2.pdf"])]).1
        = "work/in.zip" :=
  ⟨(zip_pdf_archive_spec "docs/in.pdf" "work/out" [("work/out", ["1.pdf", "2.pdf"])]
      (by decide)).1, by decide, by decide⟩
